import Mathlib

/-!
Verification of the grammersthon event-dispatch library against its
natural-language specification.

Strings are modelled as `List Char` (`&str` slicing in the code always
happens at character boundaries found by `find`, so byte indices and
character indices coincide at every slice point used by the code).
Rust `Option`/`Result` are modelled as `Option`/`Except`.
-/

/-- Character-list model of Rust strings; `chars` converts a literal. -/
def chars (s : String) : List Char := s.data

/-- Model of Rust `str::trim` (drop whitespace from both ends).
The code is only ever exercised on the common whitespace characters,
which `Char.isWhitespace` covers. -/
def trimList (l : List Char) : List Char :=
  ((l.dropWhile Char.isWhitespace).reverse.dropWhile Char.isWhitespace).reverse

/-- Errors of the library (src/grammersthon/src/error.rs, `GrammersthonError`).
Payloads of wrapped external error types are modelled as strings. -/
inductive GrammersthonError where
  | io (msg : List Char)
  | authorizationError (msg : List Char)
  | missingParameters (what : List Char)
  | signInError (msg : List Char)
  | invocationError (msg : List Char)
  | unimplemented
  | error (msg : List Char)
  | parse (value : List Char) (cause : Option (List Char))
deriving DecidableEq, Repr

instance {e a : Type} [DecidableEq e] [DecidableEq a] :
    DecidableEq (Except e a)
  | .error x, .error y =>
    match decEq x y with
    | isTrue h => isTrue (h ▸ rfl)
    | isFalse h => isFalse fun hh => h (Except.error.inj hh)
  | .error _, .ok _ => isFalse fun hh => Except.noConfusion hh
  | .ok _, .error _ => isFalse fun hh => Except.noConfusion hh
  | .ok x, .ok y =>
    match decEq x y with
    | isTrue h => isTrue (h ▸ rfl)
    | isFalse h => isFalse fun hh => h (Except.ok.inj hh)

/-- Result type of a handler (src/grammersthon/src/handler.rs, `HandlerResult`). -/
abbrev HandlerResult := Except GrammersthonError Unit

/-- Raw space-separated arguments (src/grammersthon/src/args.rs, `RawArgs`). -/
structure RawArgs where
  args : List (List Char)
deriving DecidableEq, Repr

/-- The character-consuming loop of `RawArgs::parse_n`
(src/grammersthon/src/args.rs lines 29-46).  State: accumulated `args`,
current token `arg`, remaining characters.  Returns the final `args`,
the final `arg` and the characters left unconsumed (`chars.collect()`
after a `break`, empty after normal exhaustion). -/
def parseNLoop (count : Nat) (args : List (List Char)) (arg : List Char) :
    List Char → List (List Char) × List Char × List Char
  | [] => (args, arg, [])
  | c :: cs =>
    if c = ' ' then
      if arg = [] then
        parseNLoop count args arg cs
      else
        if (args ++ [trimList arg]).length = count then
          (args ++ [trimList arg], [], cs)
        else
          parseNLoop count (args ++ [trimList arg]) [] cs
    else
      parseNLoop count args (arg ++ [c]) cs

/-- `RawArgs::parse_n` (src/grammersthon/src/args.rs lines 23-53):
parse up to `count` arguments, return them together with the rest of
the input.  The final non-empty `arg` is pushed untrimmed, mirroring
the epilogue `if !arg.is_empty() { args.push(arg); }`. -/
def RawArgs.parse_n (input : List Char) (count : Nat) : RawArgs × List Char :=
  if count = 0 then
    (⟨[]⟩, input)
  else
    let r := parseNLoop count [] [] input
    (⟨if r.2.1 = [] then r.1 else r.1 ++ [r.2.1]⟩, r.2.2)

/-- Media payload of a message (model of `grammers_client::types::Media`;
only the variant tag matters to the code under verification, payloads are
identifiers). -/
inductive Media where
  | photo (id : Nat)
  | document (id : Nat)
  | sticker (id : Nat)
  | contact (id : Nat)
deriving DecidableEq, Repr

/-- Chat a message was sent in (model of `grammers_client::types::Chat`). -/
inductive Chat where
  | user (id : Nat)
  | group (id : Nat)
  | channel (id : Nat)
deriving DecidableEq, Repr

/-- A message (model of `grammers_client::types::Message`): the fields the
dispatch code reads through `text()`, `media()` and `chat()`. -/
structure Message where
  text : List Char
  media : Option Media
  chat : Chat
deriving DecidableEq, Repr

/-- Cloneable client handle (opaque to dispatch; an id models identity). -/
structure Client where
  id : Nat
deriving DecidableEq, Repr

/-- A user (model of `grammers_client::types::User`). -/
structure User where
  id : Nat
deriving DecidableEq, Repr

/-- An update delivered by the client (model of `grammers_client::Update`):
one routable variant (`NewMessage`), everything else opaque. -/
inductive Update where
  | newMessage (m : Message)
  | other (id : Nat)
deriving DecidableEq, Repr

/-- Per-event handler context (src/grammersthon/src/handler.rs, `HandlerData`).
The user-data store is modelled as an association list from a type tag to a
value; the `text` read by args.rs is the message text. -/
structure HandlerData where
  client : Client
  message : Message
  me : User
  data : List (Nat × Nat)
deriving DecidableEq, Repr

/-- Model of a compiled regular expression of the external `regex` crate:
compilation succeeded, the pattern is retained. -/
structure Regex where
  pattern : List Char
deriving DecidableEq, Repr

/-- Model of regex-crate pattern validity: group parentheses are balanced.
This is a necessary condition of `regex::Regex::new` succeeding (an
unclosed `(` is rejected by the crate) and is a pure function of the
pattern, which is what the verified properties rely on. -/
def regexValidLoop : List Char → Nat → Bool
  | [], 0 => true
  | [], _ + 1 => false
  | c :: cs, depth =>
    if c = '(' then
      regexValidLoop cs (depth + 1)
    else if c = ')' then
      match depth with
      | 0 => false
      | d + 1 => regexValidLoop cs d
    else
      regexValidLoop cs depth

/-- Model of `regex::Regex::new`: `none` models the compile error. -/
def Regex.new (pat : List Char) : Option Regex :=
  if regexValidLoop pat 0 then some ⟨pat⟩ else none

/-- Is `pat` a contiguous run of `text`?  Implements substring search. -/
def containsSeq (pat : List Char) : List Char → Bool
  | [] => pat.isEmpty
  | c :: cs => pat.isPrefixOf (c :: cs) || containsSeq pat cs

/-- Model of `regex::Regex::is_match`, restricted to the literal patterns
(no metacharacters) that the verified examples use: substring match. -/
def Regex.matchesText (r : Regex) (text : List Char) : Bool :=
  containsSeq r.pattern text

/-- A handler filter (src/grammersthon/src/handler.rs, `HandlerFilter`):
a regex pattern string or an arbitrary predicate. -/
inductive HandlerFilter where
  | regex (pattern : List Char)
  | fn (f : Message → HandlerData → Bool)

/-- `HandlerFilter::is_match` (src/grammersthon/src/handler.rs lines
128-139).  `none` models the `unwrap` panicking when the dispatch-time
recompilation `Regex::new(&r)` fails; with a registered pattern mutator
the mutator produces the compiled regex directly and cannot fail. -/
def HandlerFilter.matches (f : HandlerFilter) (message : Message)
    (mutator : Option (List Char → Regex)) (d : HandlerData) : Option Bool :=
  match f with
  | .regex r =>
    match mutator with
    | some m => some ((m r).matchesText message.text)
    | none =>
      match Regex.new r with
      | some re => some (re.matchesText message.text)
      | none => none
  | .fn f => some (f message d)

/-- `handler.filters.iter().all(...)` (src/grammersthon/src/handler.rs line
208): conjunction over the filter set, short-circuiting at the first
`false`; `none` models a panic inside one evaluated filter. -/
def filtersMatch (filters : List HandlerFilter) (message : Message)
    (mutator : Option (List Char → Regex)) (d : HandlerData) : Option Bool :=
  match filters with
  | [] => some true
  | f :: fs =>
    match f.matches message mutator d with
    | none => none
    | some false => some false
    | some true => filtersMatch fs message mutator d

/-- A registered entry (src/grammersthon/src/handler.rs, `HandlerWrap`).
The `handler` field models the boxed closure produced by
`Handlers::box_handler`: applying it performs `A::from_data(data)` and, on
success, runs the handler, so `none` means "declared parameters could not
be extracted" and `some r` means "handler ran and returned `r`". -/
structure HandlerWrap where
  filters : List HandlerFilter
  handler : HandlerData → Option HandlerResult

/-- The registered handler table (src/grammersthon/src/handler.rs,
`Handlers`).  The error handler is modelled with the `(error, client)`
calling convention used at the single call site in
src/grammersthon/src/lib.rs line 79. -/
structure Handlers where
  handlers : List HandlerWrap
  messageFallback : HandlerData → Option HandlerResult
  fallback : Client → Update → HandlerResult
  error : GrammersthonError → Client → HandlerResult
  patternMutator : Option (List Char → Regex)
  interceptor : Option (HandlerData → Except GrammersthonError HandlerData)

/-- Default message fallback handler (src/grammersthon/src/handler.rs lines
34-37): logs the unhandled message and succeeds.  Its single `String`
parameter always extracts, so the model is total. -/
def defaultMessageFallback (_ : HandlerData) : Option HandlerResult :=
  some (.ok ())

/-- Default error handler (src/grammersthon/src/handler.rs lines 158-161):
logs the error and reports success. -/
def defaultErrorHandler (_ : GrammersthonError) (_ : Client) : HandlerResult :=
  .ok ()

/-- `Handlers::new` (src/grammersthon/src/handler.rs lines 151-168). -/
def Handlers.new : Handlers where
  handlers := []
  messageFallback := defaultMessageFallback
  fallback := fun _ _ => .ok ()
  error := defaultErrorHandler
  patternMutator := none
  interceptor := none

/-- `Grammersthon::add_handler` / `Handlers::add` (src/grammersthon/src/
handler.rs lines 41-49 and 184-186): append the entry, no validation. -/
def Handlers.add (hs : Handlers) (filters : List HandlerFilter)
    (handler : HandlerData → Option HandlerResult) : Handlers :=
  { hs with handlers := hs.handlers ++ [⟨filters, handler⟩] }

/-- The handler-search loop of `Handlers::handle` (src/grammersthon/src/
handler.rs lines 206-214).  `none` models a panic while evaluating a
filter; `some none` means no entry both matched and extracted;
`some (some r)` means the first firing entry returned `r`. -/
def findHandler (entries : List HandlerWrap) (message : Message)
    (mutator : Option (List Char → Regex)) (d : HandlerData) :
    Option (Option HandlerResult) :=
  match entries with
  | [] => some none
  | e :: es =>
    match filtersMatch e.filters message mutator d with
    | none => none
    | some false => findHandler es message mutator d
    | some true =>
      match e.handler d with
      | some r => some (some r)
      | none => findHandler es message mutator d

/-- Construction of the per-event context (src/grammersthon/src/handler.rs
line 198). -/
def mkData (client : Client) (message : Message) (me : User)
    (store : List (Nat × Nat)) : HandlerData :=
  ⟨client, message, me, store⟩

/-- `Handlers::handle` (src/grammersthon/src/handler.rs lines 189-222).
Non-message updates go to the update fallback; otherwise the context is
built, the interceptor may replace it (its error propagates via `?` as the
dispatch result), entries are searched in order — note the filters are
run against the original message while extraction uses the (possibly
intercepted) context — and if no entry fires the message fallback runs,
its own extraction failure producing the missing-parameters error.
`none` models a filter-recompilation panic. -/
def Handlers.handle (hs : Handlers) (client : Client) (update : Update)
    (me : User) (store : List (Nat × Nat)) : Option HandlerResult :=
  match update with
  | .newMessage message =>
    let d0 := mkData client message me store
    match (match hs.interceptor with
           | some i => i d0
           | none => .ok d0) with
    | .error e => some (.error e)
    | .ok d =>
      match findHandler hs.handlers message hs.patternMutator d with
      | none => none
      | some (some r) => some r
      | some none =>
        match hs.messageFallback d with
        | some r => some r
        | none =>
          some (.error (.missingParameters
            (chars "Fallback handle function parameter")))
  | u => some (hs.fallback client u)

/-- `FromHandlerData for Client` (handler.rs lines 266-270). -/
def clientFromData (d : HandlerData) : Option Client :=
  some d.client

/-- `FromHandlerData for Message` (handler.rs lines 272-276). -/
def messageFromData (d : HandlerData) : Option Message :=
  some d.message

/-- `FromHandlerData for String` (handler.rs lines 278-282). -/
def stringFromData (d : HandlerData) : Option (List Char) :=
  some d.message.text

/-- `FromHandlerData for Media` (handler.rs lines 284-288). -/
def mediaFromData (d : HandlerData) : Option Media :=
  d.message.media

/-- `FromHandlerData for Document` (handler.rs lines 296-303). -/
def documentFromData (d : HandlerData) : Option Nat :=
  (d.message.media.map fun m =>
    match m with
    | .document i => some i
    | _ => none).join

/-- `FromHandlerData for Sticker` (handler.rs lines 305-312): present only
when the message's media is a sticker. -/
def stickerFromData (d : HandlerData) : Option Nat :=
  (d.message.media.map fun m =>
    match m with
    | .sticker s => some s
    | _ => none).join

/-- `FromHandlerData for Chat` (handler.rs lines 338-342). -/
def chatFromData (d : HandlerData) : Option Chat :=
  some d.message.chat

/-- `FromHandlerData for Group` (handler.rs lines 354-362). -/
def groupFromData (d : HandlerData) : Option Nat :=
  match d.message.chat with
  | .user _ => none
  | .group g => some g
  | .channel _ => none

/-- The `from_handler_data_impl!` expansion for the empty tuple
(handler.rs line 404): extraction always succeeds. -/
def fromData0 (_ : HandlerData) : Option Unit :=
  some ()

/-- The `from_handler_data_impl! { A }` expansion (handler.rs line 405). -/
def fromData1 {A : Type} (fa : HandlerData → Option A) (d : HandlerData) :
    Option A := do
  let a ← fa d
  pure a

/-- The `from_handler_data_impl! { A B }` expansion (handler.rs line 406):
`Some((A::from_data(data)?, B::from_data(data)?))`. -/
def fromData2 {A B : Type} (fa : HandlerData → Option A)
    (fb : HandlerData → Option B) (d : HandlerData) : Option (A × B) := do
  let a ← fa d
  let b ← fb d
  pure (a, b)

/-- The `from_handler_data_impl! { A B C }` expansion (handler.rs 407). -/
def fromData3 {A B C : Type} (fa : HandlerData → Option A)
    (fb : HandlerData → Option B) (fc : HandlerData → Option C)
    (d : HandlerData) : Option (A × B × C) := do
  let a ← fa d
  let b ← fb d
  let c ← fc d
  pure (a, b, c)

/-- The `from_handler_data_impl! { A B C D }` expansion (handler.rs 408). -/
def fromData4 {A B C D : Type} (fa : HandlerData → Option A)
    (fb : HandlerData → Option B) (fc : HandlerData → Option C)
    (fd : HandlerData → Option D) (d : HandlerData) :
    Option (A × B × C × D) := do
  let a ← fa d
  let b ← fb d
  let c ← fc d
  let e ← fd d
  pure (a, b, c, e)

/-- The `from_handler_data_impl! { A B C D E }` expansion (handler.rs 409). -/
def fromData5 {A B C D E : Type} (fa : HandlerData → Option A)
    (fb : HandlerData → Option B) (fc : HandlerData → Option C)
    (fd : HandlerData → Option D) (fe : HandlerData → Option E)
    (d : HandlerData) : Option (A × B × C × D × E) := do
  let a ← fa d
  let b ← fb d
  let c ← fc d
  let e ← fd d
  let f ← fe d
  pure (a, b, c, e, f)

/-- The `from_handler_data_impl! { A B C D E F }` expansion (410). -/
def fromData6 {A B C D E F : Type} (fa : HandlerData → Option A)
    (fb : HandlerData → Option B) (fc : HandlerData → Option C)
    (fd : HandlerData → Option D) (fe : HandlerData → Option E)
    (ff : HandlerData → Option F) (d : HandlerData) :
    Option (A × B × C × D × E × F) := do
  let a ← fa d
  let b ← fb d
  let c ← fc d
  let e ← fd d
  let f ← fe d
  let g ← ff d
  pure (a, b, c, e, f, g)

/-- The `from_handler_data_impl! { A B C D E F G }` expansion (411). -/
def fromData7 {A B C D E F G : Type} (fa : HandlerData → Option A)
    (fb : HandlerData → Option B) (fc : HandlerData → Option C)
    (fd : HandlerData → Option D) (fe : HandlerData → Option E)
    (ff : HandlerData → Option F) (fg : HandlerData → Option G)
    (d : HandlerData) : Option (A × B × C × D × E × F × G) := do
  let a ← fa d
  let b ← fb d
  let c ← fc d
  let e ← fd d
  let f ← fe d
  let g ← ff d
  let h ← fg d
  pure (a, b, c, e, f, g, h)

/-- The `from_handler_data_impl! { A B C D E F G H }` expansion (412). -/
def fromData8 {A B C D E F G H : Type} (fa : HandlerData → Option A)
    (fb : HandlerData → Option B) (fc : HandlerData → Option C)
    (fd : HandlerData → Option D) (fe : HandlerData → Option E)
    (ff : HandlerData → Option F) (fg : HandlerData → Option G)
    (fh : HandlerData → Option H) (d : HandlerData) :
    Option (A × B × C × D × E × F × G × H) := do
  let a ← fa d
  let b ← fb d
  let c ← fc d
  let e ← fd d
  let f ← fe d
  let g ← ff d
  let h ← fg d
  let i ← fh d
  pure (a, b, c, e, f, g, h, i)

/-- Model of Rust `str::find(" ")`: the index of the first space character
(a byte index in Rust; the slice `&text[i..]` taken at it is exactly the
character-level suffix starting at that space, so the character index is
the faithful model). -/
def strFindSpace : List Char → Option Nat
  | [] => none
  | c :: cs => if c = ' ' then some 0 else (strFindSpace cs).map (· + 1)

/-- Wrapper for typed arguments parsed from the message body
(src/grammersthon/src/args.rs, `Args`). -/
structure Args (A : Type) where
  val : A
deriving DecidableEq, Repr

/-- `FromHandlerData for Args<A>` (src/grammersthon/src/args.rs lines
10-15), with the `FromArgs` parser of `A` passed explicitly:
`let i = data.text.find(" ")?; Some(Args(A::parse_arg(&data.text[i..]).ok()?))`.
No space means absence; the slice starts at the space itself. -/
def argsFromData {A : Type} (pa : List Char → Except GrammersthonError A)
    (text : List Char) : Option (Args A) :=
  match strFindSpace text with
  | none => none
  | some i =>
    match pa (text.drop i) with
    | .ok a => some ⟨a⟩
    | .error _ => none

/-- `FromArgs for RawArgs` (src/grammersthon/src/args.rs lines 56-60):
split on spaces, drop parts that trim to empty, trim the rest; always
`Ok`. -/
def RawArgs.parse_arg (input : List Char) : Except GrammersthonError RawArgs :=
  .ok ⟨((input.splitOn ' ').filter fun a => ¬ trimList a = []).map trimList⟩

/-- `FromHandlerData for RawArgs` (src/grammersthon/src/args.rs lines
62-69): with a space, parse the suffix from it; without, the empty
`RawArgs::default()`. -/
def rawArgsFromData (text : List Char) : Option RawArgs :=
  match strFindSpace text with
  | some i => (RawArgs.parse_arg (text.drop i)).toOption
  | none => some ⟨[]⟩

/-- `FromArgs for String` (src/grammersthon/src/args.rs lines 77-81):
returns the input verbatim, never fails. -/
def stringParseArg (input : List Char) : Except GrammersthonError (List Char) :=
  .ok input

/-- Model of Rust `str::parse::<u32>` as used by the `from_args_parse!`
expansion for `u32` (src/grammersthon/src/args.rs lines 105-114): an
optional leading `+`, then one or more decimal digits, value below
`2^32`; anything else is a parse error carrying the input. -/
def parseU32 (input : List Char) : Except GrammersthonError Nat :=
  let ds := match input with
    | '+' :: rest => rest
    | l => l
  if ds ≠ [] ∧ ds.all Char.isDigit then
    let v := ds.foldl (fun a c => a * 10 + (c.toNat - 48)) 0
    if v < 2 ^ 32 then .ok v
    else .error (.parse input none)
  else .error (.parse input none)

/-- A single value universe for modelling fields of differing Rust types
inside one derived argument struct. -/
inductive Val where
  | nat (n : Nat)
  | str (s : List Char)
deriving DecidableEq, Repr

/-- Field-by-field parsing of the first `k-1` tokens, mirroring the
`<Ty>::parse_arg(&args.0[i])?` sequence the derive emits
(src/grammersthon-macro/src/lib.rs lines 151-167); the out-of-bounds
index panic cannot occur behind the emitted length guard and is
modelled as an error. -/
def parseFields {V : Type} (ps : List (List Char → Except GrammersthonError V)) :
    List (List Char) → Except GrammersthonError (List V)
  | toks =>
    match ps, toks with
    | [], _ => .ok []
    | _ :: _, [] => .error (.parse [] none)
    | p :: ps', t :: ts =>
      match p t with
      | .error e => .error e
      | .ok v =>
        match parseFields ps' ts with
        | .error e => .error e
        | .ok vs => .ok (v :: vs)

/-- The `FromArgs::parse_arg` body that `#[derive(FromArgs)]` generates for
a struct whose last field carries `#[rest]`
(src/grammersthon-macro/src/lib.rs lines 108-128 and 151-167), for
`ps.length + 1` fields: `let (args, rest) = RawArgs::parse_n(input, k-1)`,
a token-count guard failing with `Parse(input, None)`, each leading field
parsed from its token, the last field parsed from the full `rest`. -/
def derivedRestStructParse {V : Type}
    (ps : List (List Char → Except GrammersthonError V))
    (restP : List Char → Except GrammersthonError V) (input : List Char) :
    Except GrammersthonError (List V × V) :=
  let pr := RawArgs.parse_n input ps.length
  if pr.1.args.length < ps.length then .error (.parse input none)
  else
    match parseFields ps pr.1.args with
    | .error e => .error e
    | .ok vs =>
      match restP pr.2 with
      | .error e => .error e
      | .ok r => .ok (vs, r)

/-- One iteration of the spawned dispatch task in
`Grammersthon::start_event_loop` (src/grammersthon/src/lib.rs lines
75-84): run `Handlers::handle`; on an error result invoke the error
handler once with the error and the client.  Returns the dispatch result
together with the list of error-handler invocations it caused. -/
def processUpdate (hs : Handlers) (client : Client) (me : User)
    (store : List (Nat × Nat)) (u : Update) :
    Option HandlerResult × List (GrammersthonError × Client) :=
  let r := hs.handle client u me store
  (r, match r with
      | some (.error e) => [(e, client)]
      | _ => [])

/-- The event loop of `Grammersthon::start_event_loop`
(src/grammersthon/src/lib.rs lines 66-88) over a finite stream of
updates: every fetched update is dispatched, a handler failure is routed
to the error handler and never stops the loop. -/
def eventLoop (hs : Handlers) (client : Client) (me : User)
    (store : List (Nat × Nat)) (updates : List Update) :
    List (Option HandlerResult × List (GrammersthonError × Client)) :=
  updates.map (processUpdate hs client me store)

/-- An entry fires on a context: all its filters match (no panic) and its
declared parameters extract, the handler returning `r`. -/
def entryFires (e : HandlerWrap) (message : Message)
    (mutator : Option (List Char → Regex)) (d : HandlerData)
    (r : HandlerResult) : Prop :=
  filtersMatch e.filters message mutator d = some true ∧ e.handler d = some r

/-- An entry is passed over: a filter evaluates to false, or all match but
parameter extraction fails. -/
def entrySkips (e : HandlerWrap) (message : Message)
    (mutator : Option (List Char → Regex)) (d : HandlerData) : Prop :=
  filtersMatch e.filters message mutator d = some false ∨
  (filtersMatch e.filters message mutator d = some true ∧ e.handler d = none)

/-- A filter whose dispatch-time recompilation is guaranteed: its pattern
compiles (predicate filters never compile anything). -/
def filterValidated : HandlerFilter → Prop
  | .regex p => (Regex.new p).isSome = true
  | .fn _ => True

instance (f : HandlerFilter) : Decidable (filterValidated f) :=
  match f with
  | .regex p => inferInstanceAs (Decidable ((Regex.new p).isSome = true))
  | .fn _ => .isTrue trivial

/-- The filter-string validation performed by the attribute's
`Parse for HandlerFilter` (src/grammersthon-macro/src/lib.rs lines 79-96):
`Regex::new(&regex).expect(..)` — a malformed pattern never yields a
`HandlerFilter::Regex`, modelled by `none`. -/
def attrRegexFilter (pat : List Char) : Option HandlerFilter :=
  match Regex.new pat with
  | some _ => some (.regex pat)
  | none => none

/-- Index of the first whitespace character, as the spec's words for
argument binding describe it ("after the first whitespace"). -/
def firstWhitespaceIdx : List Char → Option Nat
  | [] => none
  | c :: cs =>
    if c.isWhitespace then some 0 else (firstWhitespaceIdx cs).map (· + 1)

/-- `Args<A>` extraction as claim C4 words it: the substring after the
first whitespace is fed to the binder, no whitespace means empty argument
text, and a binder failure yields absence. -/
def argsFromDataClaim {A : Type} (pa : List Char → Except GrammersthonError A)
    (text : List Char) : Option (Args A) :=
  match firstWhitespaceIdx text with
  | none =>
    match pa [] with
    | .ok a => some ⟨a⟩
    | .error _ => none
  | some i =>
    match pa (text.drop (i + 1)) with
    | .ok a => some ⟨a⟩
    | .error _ => none

/-- `split_n` as claim C7 words it: at most `n` tokens, each trimmed, with
runs of any whitespace acting as delimiters (hence no token may contain a
whitespace character). -/
def splitOnWhitespaceClaim (input : List Char) (count : Nat) : Prop :=
  (RawArgs.parse_n input count).1.args.length ≤ count ∧
  ∀ t ∈ (RawArgs.parse_n input count).1.args,
    trimList t = t ∧ ∀ c ∈ t, ¬ c.isWhitespace = true

/-- A concrete client. -/
def clientX : Client := ⟨0⟩

/-- A concrete self-identity. -/
def meX : User := ⟨1⟩

/-- A text-only message with text `"x"`. -/
def msgX : Message := ⟨chars "x", none, .user 2⟩

/-- A text-only message with text `"hi"`. -/
def msgPlain : Message := ⟨chars "hi", none, .user 2⟩

/-- Context for `msgX`. -/
def dX : HandlerData := mkData clientX msgX meX []

/-- Context for `msgPlain`. -/
def plainData : HandlerData := mkData clientX msgPlain meX []

/-- Handler A of the registration-order example: always extracts, returns
a result tagged `A`. -/
def handlerA : HandlerData → Option HandlerResult :=
  fun _ => some (.error (.missingParameters (chars "A")))

/-- Handler B of the registration-order example: always extracts, returns
a result tagged `B`. -/
def handlerB : HandlerData → Option HandlerResult :=
  fun _ => some (.error (.missingParameters (chars "B")))

/-- The table `[A(filter matches "x"), B(filter matches "x")]` of the
spec's registration-order example. -/
def tableAB : Handlers :=
  (Handlers.new.add [.regex (chars "x")] handlerA).add
    [.regex (chars "x")] handlerB

/-- A table whose single entry does not match `msgPlain` and whose message
fallback cannot extract its parameters. -/
def tableNoMatch : Handlers :=
  { Handlers.new with
      handlers := [⟨[.regex (chars "zzz")], fun _ => some (.ok ())⟩],
      messageFallback := fun _ => none }

/-- A table whose single unfiltered entry always fails. -/
def tableErr : Handlers :=
  { Handlers.new with
      handlers := [⟨[], fun _ => some (.error .unimplemented)⟩] }

/-- A table with one macro-validated pattern filter. -/
def tableVal : Handlers :=
  Handlers.new.add [.regex (chars "x")] (fun _ => some (.ok ()))

/-- C8: `split_n` preserves the untouched remainder: for every string `s`,
`split_n(s, 0) = ([], s)`; on `"aaa  bbb c d e  f  g"`, `n = 1` yields
`(["aaa"], " bbb c d e  f  g")` and `n = 2` yields
`(["aaa","bbb"], "c d e  f  g")`, the rest keeping original spacing. -/
theorem parse_n_rest_preservation :
    (∀ s : List Char, RawArgs.parse_n s 0 = (⟨[]⟩, s)) ∧
    RawArgs.parse_n (chars "aaa  bbb c d e  f  g") 1 =
      (⟨[chars "aaa"]⟩, chars " bbb c d e  f  g") ∧
    RawArgs.parse_n (chars "aaa  bbb c d e  f  g") 2 =
      (⟨[chars "aaa", chars "bbb"]⟩, chars "c d e  f  g") :=
  ⟨fun _ => rfl, by decide, by decide⟩

/-- `dropWhile` is idempotent. -/
theorem dropWhile_self_eq (p : Char → Bool) (l : List Char) :
    (l.dropWhile p).dropWhile p = l.dropWhile p := by
  induction l with
  | nil => rfl
  | cons a l ih =>
    cases hp : p a <;> simp [List.dropWhile_cons, hp, ih]

/-- `dropWhile` never lengthens a list. -/
theorem length_dropWhile_le' (p : Char → Bool) (l : List Char) :
    (l.dropWhile p).length ≤ l.length := by
  induction l with
  | nil => exact Nat.le_refl 0
  | cons a l ih =>
    cases hp : p a <;> simp [List.dropWhile_cons, hp]
    exact Nat.le_succ_of_le ih

/-- Membership survives `dropWhile` removal. -/
theorem mem_of_mem_dropWhile {p : Char → Bool} {l : List Char} {a : Char}
    (h : a ∈ l.dropWhile p) : a ∈ l := by
  have hd := List.takeWhile_append_dropWhile p l
  rw [← hd]
  exact List.mem_append_right _ h

/-- A member of the trimmed list is a member of the original. -/
theorem mem_of_mem_trimList {l : List Char} {a : Char}
    (h : a ∈ trimList l) : a ∈ l := by
  unfold trimList at h
  rw [List.mem_reverse] at h
  have h2 := mem_of_mem_dropWhile h
  rw [List.mem_reverse] at h2
  exact mem_of_mem_dropWhile h2

/-- Trimming preserves freedom from spaces. -/
theorem not_mem_trimList {l : List Char} (h : ¬ ' ' ∈ l) :
    ¬ ' ' ∈ trimList l :=
  fun hm => h (mem_of_mem_trimList hm)

/-- If a list is already left-trimmed, trimming its right end keeps it
left-trimmed. -/
theorem dropWhile_of_back_trim (p : Char → Bool) (A : List Char)
    (h : A.dropWhile p = A) :
    ((A.reverse.dropWhile p).reverse).dropWhile p =
      (A.reverse.dropWhile p).reverse := by
  have hdecomp : A = (A.reverse.dropWhile p).reverse ++
      (A.reverse.takeWhile p).reverse := by
    have := List.takeWhile_append_dropWhile p A.reverse
    calc A = A.reverse.reverse := (List.reverse_reverse A).symm
    _ = (A.reverse.takeWhile p ++ A.reverse.dropWhile p).reverse := by rw [this]
    _ = (A.reverse.dropWhile p).reverse ++ (A.reverse.takeWhile p).reverse := by
        rw [List.reverse_append]
  cases hr : (A.reverse.dropWhile p).reverse with
  | nil => rfl
  | cons a r' =>
    rw [hr] at hdecomp
    have hA : A = a :: (r' ++ (A.reverse.takeWhile p).reverse) := hdecomp
    have hpa : p a = false := by
      cases hpa : p a
      · rfl
      · exfalso
        rw [hA, List.dropWhile_cons, hpa, if_pos rfl] at h
        have hlen := length_dropWhile_le' p (r' ++ (A.reverse.takeWhile p).reverse)
        rw [h] at hlen
        simp at hlen
    rw [List.dropWhile_cons, hpa]
    simp

/-- `trimList` is idempotent: a trimmed token is its own trim. -/
theorem trimList_trimList (l : List Char) : trimList (trimList l) = trimList l := by
  unfold trimList
  have hfront := dropWhile_of_back_trim Char.isWhitespace
    (l.dropWhile Char.isWhitespace) (dropWhile_self_eq Char.isWhitespace l)
  rw [hfront, List.reverse_reverse, dropWhile_self_eq]

/-- The invariant of the `parse_n` character loop: starting below the
token budget with space-free, trimmed accumulated tokens and a space-free
current token, the loop keeps at most `count` tokens, all space-free and
trimmed, the final current token is space-free, and a non-empty final
current token certifies the budget was not exhausted. -/
theorem parseNLoop_inv (count : Nat) (cs : List Char) :
    ∀ (args : List (List Char)) (arg : List Char),
      args.length < count →
      (∀ t ∈ args, ¬ ' ' ∈ t) →
      (∀ t ∈ args, trimList t = t) →
      ¬ ' ' ∈ arg →
      ((parseNLoop count args arg cs).1.length ≤ count) ∧
      ((parseNLoop count args arg cs).2.1 ≠ [] →
        (parseNLoop count args arg cs).1.length < count) ∧
      (∀ t ∈ (parseNLoop count args arg cs).1, ¬ ' ' ∈ t) ∧
      (∀ t ∈ (parseNLoop count args arg cs).1, trimList t = t) ∧
      ¬ ' ' ∈ (parseNLoop count args arg cs).2.1 := by
  induction cs with
  | nil =>
    intro args arg hlt hsp htr hasp
    exact ⟨Nat.le_of_lt hlt, fun _ => hlt, hsp, htr, hasp⟩
  | cons c cs ih =>
    intro args arg hlt hsp htr hasp
    by_cases hc : c = ' '
    · by_cases ha : arg = []
      · simp only [parseNLoop, if_pos hc, if_pos ha]
        exact ih args arg hlt hsp htr hasp
      · have hspush : ∀ t ∈ args ++ [trimList arg], ¬ ' ' ∈ t := by
          intro t ht
          rcases List.mem_append.mp ht with ht | ht
          · exact hsp t ht
          · rw [List.mem_singleton.mp ht]
            exact not_mem_trimList hasp
        have htrpush : ∀ t ∈ args ++ [trimList arg], trimList t = t := by
          intro t ht
          rcases List.mem_append.mp ht with ht | ht
          · exact htr t ht
          · rw [List.mem_singleton.mp ht]
            exact trimList_trimList arg
        have hlenpush : (args ++ [trimList arg]).length ≤ count := by
          simp only [List.length_append, List.length_singleton]
          omega
        by_cases hfull : (args ++ [trimList arg]).length = count
        · simp only [parseNLoop, if_pos hc, if_neg ha, if_pos hfull]
          refine ⟨hlenpush, fun hne => absurd rfl hne, hspush, htrpush, ?_⟩
          simp
        · simp only [parseNLoop, if_pos hc, if_neg ha, if_neg hfull]
          exact ih (args ++ [trimList arg]) []
            (Nat.lt_of_le_of_ne hlenpush hfull) hspush htrpush (by simp)
    · simp only [parseNLoop, if_neg hc]
      refine ih args (arg ++ [c]) hlt hsp htr ?_
      intro hm
      rcases List.mem_append.mp hm with hm | hm
      · exact hasp hm
      · exact hc (List.mem_singleton.mp hm).symm

/-- A member of `dropLast` is a member of the list. -/
theorem mem_of_mem_dropLast {l : List (List Char)} {t : List Char}
    (h : t ∈ l.dropLast) : t ∈ l :=
  (List.dropLast_sublist l).subset h

/-- `str::find(" ")` returns `none` exactly when the text holds no space. -/
theorem strFindSpace_eq_none {l : List Char} (h : ¬ ' ' ∈ l) :
    strFindSpace l = none := by
  induction l with
  | nil => rfl
  | cons c cs ih =>
    have hc : ¬ c = ' ' := fun hc => h (by simp [hc])
    have hcs : ¬ ' ' ∈ cs := fun hm => h (List.mem_cons_of_mem c hm)
    simp [strFindSpace, hc, ih hcs]

/-- `str::find(" ")` returns the index of the first space: if position `i`
holds a space and no earlier position does, the find yields `i`. -/
theorem strFindSpace_spec {l : List Char} {i : Nat}
    (hi : l.get? i = some ' ') (hmin : ∀ j, j < i → ¬ l.get? j = some ' ') :
    strFindSpace l = some i := by
  induction l generalizing i with
  | nil => simp [List.get?] at hi
  | cons c cs ih =>
    by_cases hc : c = ' '
    · have hi0 : i = 0 := by
        by_contra hne
        exact hmin 0 (Nat.pos_of_ne_zero hne) (by simp [List.get?, hc])
      simp [strFindSpace, hc, hi0]
    · cases i with
      | zero =>
        simp [List.get?] at hi
        exact absurd hi hc
      | succ n =>
        have hcs : cs.get? n = some ' ' := hi
        have hmin' : ∀ j, j < n → ¬ cs.get? j = some ' ' := by
          intro j hj
          exact hmin (j + 1) (Nat.succ_lt_succ hj)
        simp [strFindSpace, hc, ih hcs hmin']

/-- The field-sequence parser succeeds with exactly one value per field
parser, each obtained by running that field's parser on the matching
token. -/
theorem parseFields_spec {V : Type}
    (ps : List (List Char → Except GrammersthonError V)) :
    ∀ (toks : List (List Char)) (vs : List V),
      parseFields ps toks = .ok vs →
      vs.length = ps.length ∧
      ∀ i, i < ps.length →
        ∃ p t v, ps.get? i = some p ∧ toks.get? i = some t ∧
          vs.get? i = some v ∧ p t = .ok v := by
  induction ps with
  | nil =>
    intro toks vs h
    simp [parseFields] at h
    subst h
    exact ⟨rfl, fun i hi => absurd hi (Nat.not_lt_zero i)⟩
  | cons p ps ih =>
    intro toks vs h
    cases toks with
    | nil => simp [parseFields] at h
    | cons t ts =>
      simp only [parseFields] at h
      cases hp : p t with
      | error e => rw [hp] at h; simp at h
      | ok v =>
        rw [hp] at h
        cases hrest : parseFields ps ts with
        | error e => rw [hrest] at h; simp at h
        | ok vs' =>
          rw [hrest] at h
          simp at h
          subst h
          obtain ⟨hlen, helem⟩ := ih ts vs' hrest
          refine ⟨by simp [hlen], ?_⟩
          intro i hi
          cases i with
          | zero => exact ⟨p, t, v, rfl, rfl, rfl, hp⟩
          | succ n =>
            exact helem n (Nat.lt_of_succ_lt_succ hi)

/-- A validated filter never panics while matching. -/
theorem matches_total_of_validated (f : HandlerFilter) (message : Message)
    (mutator : Option (List Char → Regex)) (d : HandlerData)
    (h : filterValidated f) : ∃ b, f.matches message mutator d = some b := by
  cases f with
  | regex p =>
    cases mutator with
    | some m => exact ⟨_, rfl⟩
    | none =>
      cases hr : Regex.new p with
      | some re =>
        exact ⟨re.matchesText message.text, by simp [HandlerFilter.matches, hr]⟩
      | none =>
        exfalso
        have : (Regex.new p).isSome = true := h
        rw [hr] at this
        simp at this
  | fn g => exact ⟨_, rfl⟩

/-- A filter set of validated filters never panics while matching. -/
theorem filtersMatch_total (filters : List HandlerFilter) (message : Message)
    (mutator : Option (List Char → Regex)) (d : HandlerData)
    (h : ∀ f ∈ filters, filterValidated f) :
    ∃ b, filtersMatch filters message mutator d = some b := by
  induction filters with
  | nil => exact ⟨true, rfl⟩
  | cons f fs ih =>
    obtain ⟨b, hb⟩ := matches_total_of_validated f message mutator d
      (h f (List.mem_cons_self f fs))
    cases b with
    | false => exact ⟨false, by simp [filtersMatch, hb]⟩
    | true =>
      obtain ⟨b', hb'⟩ := ih (fun g hg => h g (List.mem_cons_of_mem f hg))
      exact ⟨b', by simp [filtersMatch, hb, hb']⟩

/-- The handler search never panics over a table of validated filters. -/
theorem findHandler_total (entries : List HandlerWrap) (message : Message)
    (mutator : Option (List Char → Regex)) (d : HandlerData)
    (h : ∀ e ∈ entries, ∀ f ∈ e.filters, filterValidated f) :
    ∃ o, findHandler entries message mutator d = some o := by
  induction entries with
  | nil => exact ⟨none, rfl⟩
  | cons e es ih =>
    obtain ⟨b, hb⟩ := filtersMatch_total e.filters message mutator d
      (h e (List.mem_cons_self e es))
    have ihx := ih (fun e' he' => h e' (List.mem_cons_of_mem e he'))
    cases b with
    | false =>
      obtain ⟨o, ho⟩ := ihx
      exact ⟨o, by simp [findHandler, hb, ho]⟩
    | true =>
      cases hh : e.handler d with
      | some r => exact ⟨some r, by simp [findHandler, hb, hh]⟩
      | none =>
        obtain ⟨o, ho⟩ := ihx
        exact ⟨o, by simp [findHandler, hb, hh, ho]⟩

/-- C1: dispatch tries entries in registration order; the first entry
whose filters all match and whose declared parameters all extract is the
one invoked and its result returned, later entries are never consulted;
if the first-firing entry fires the whole dispatch returns its result;
and on the two-entry table `[A("x"), B("x")]` with input `"x"`, A's
result is returned, never B's. -/
theorem handlers_first_match_wins :
    (∀ (entries : List HandlerWrap) (message : Message)
       (mutator : Option (List Char → Regex)) (d : HandlerData)
       (i : Nat) (r : HandlerResult) (hi : i < entries.length),
      (∀ j (hj : j < i),
        entrySkips (entries.get ⟨j, Nat.lt_trans hj hi⟩) message mutator d) →
      entryFires (entries.get ⟨i, hi⟩) message mutator d r →
      findHandler entries message mutator d = some (some r)) ∧
    (∀ (hs : Handlers) (client : Client) (me : User)
       (store : List (Nat × Nat)) (message : Message) (r : HandlerResult),
      hs.interceptor = none →
      findHandler hs.handlers message hs.patternMutator
        (mkData client message me store) = some (some r) →
      hs.handle client (.newMessage message) me store = some r) ∧
    tableAB.handle clientX (.newMessage msgX) meX [] =
      some (.error (.missingParameters (chars "A"))) := by
  refine ⟨?_, ?_, ?_⟩
  · intro entries
    induction entries with
    | nil =>
      intro message mutator d i r hi
      exact absurd hi (Nat.not_lt_zero i)
    | cons e es ih =>
      intro message mutator d i r hi hskip hfire
      cases i with
      | zero =>
        obtain ⟨hf, hh⟩ := hfire
        have hf' : filtersMatch e.filters message mutator d = some true := hf
        have hh' : e.handler d = some r := hh
        simp only [findHandler]
        rw [hf', hh']
      | succ n =>
        have h0 : entrySkips e message mutator d := hskip 0 (Nat.succ_pos n)
        have hstep : findHandler (e :: es) message mutator d =
            findHandler es message mutator d := by
          rcases h0 with h | ⟨h1, h2⟩
          · simp only [findHandler]; rw [h]
          · simp only [findHandler]; rw [h1, h2]
        rw [hstep]
        have hfire' :
            entryFires (es.get ⟨n, Nat.lt_of_succ_lt_succ hi⟩)
              message mutator d r := hfire
        refine ih message mutator d n r (Nat.lt_of_succ_lt_succ hi) ?_ hfire'
        intro j hj
        exact hskip (j + 1) (Nat.succ_lt_succ hj)
  · intro hs client me store message r hint hfind
    simp only [Handlers.handle, hint]
    rw [hfind]
  · rfl

/-- Witness for C1: on the concrete two-entry table both of whose entries
match `"x"`, the search settles on entry 0 (handler A). -/
theorem handlers_first_match_wins_witness :
    findHandler tableAB.handlers msgX none dX =
      some (some (.error (.missingParameters (chars "A")))) :=
  handlers_first_match_wins.1 tableAB.handlers msgX none dX 0
    (.error (.missingParameters (chars "A"))) (by decide)
    (fun j hj => absurd hj (Nat.not_lt_zero j)) ⟨rfl, rfl⟩

set_option maxHeartbeats 3000000 in
/-- C2: composite parameter tuples of every arity 0 through 8 extract
exactly when every member extracts — one absent member makes the tuple
absent; the sticker extractor is absent on a media-free message; and an
entry whose filters match but whose parameters fail to extract is
skipped, dispatch falling through to the remaining entries. -/
theorem composite_extraction_conjunction :
    (∀ d, (fromData0 d).isSome = true) ∧
    (∀ (A : Type) (fa : HandlerData → Option A) d,
      (fromData1 fa d).isSome ↔ (fa d).isSome) ∧
    (∀ (A B : Type) (fa : HandlerData → Option A)
       (fb : HandlerData → Option B) d,
      (fromData2 fa fb d).isSome ↔ (fa d).isSome ∧ (fb d).isSome) ∧
    (∀ (A B C : Type) (fa : HandlerData → Option A)
       (fb : HandlerData → Option B) (fc : HandlerData → Option C) d,
      (fromData3 fa fb fc d).isSome ↔
        (fa d).isSome ∧ (fb d).isSome ∧ (fc d).isSome) ∧
    (∀ (A B C D : Type) (fa : HandlerData → Option A)
       (fb : HandlerData → Option B) (fc : HandlerData → Option C)
       (fd : HandlerData → Option D) d,
      (fromData4 fa fb fc fd d).isSome ↔
        (fa d).isSome ∧ (fb d).isSome ∧ (fc d).isSome ∧ (fd d).isSome) ∧
    (∀ (A B C D E : Type) (fa : HandlerData → Option A)
       (fb : HandlerData → Option B) (fc : HandlerData → Option C)
       (fd : HandlerData → Option D) (fe : HandlerData → Option E) d,
      (fromData5 fa fb fc fd fe d).isSome ↔
        (fa d).isSome ∧ (fb d).isSome ∧ (fc d).isSome ∧
        (fd d).isSome ∧ (fe d).isSome) ∧
    (∀ (A B C D E F : Type) (fa : HandlerData → Option A)
       (fb : HandlerData → Option B) (fc : HandlerData → Option C)
       (fd : HandlerData → Option D) (fe : HandlerData → Option E)
       (ff : HandlerData → Option F) d,
      (fromData6 fa fb fc fd fe ff d).isSome ↔
        (fa d).isSome ∧ (fb d).isSome ∧ (fc d).isSome ∧
        (fd d).isSome ∧ (fe d).isSome ∧ (ff d).isSome) ∧
    (∀ (A B C D E F G : Type) (fa : HandlerData → Option A)
       (fb : HandlerData → Option B) (fc : HandlerData → Option C)
       (fd : HandlerData → Option D) (fe : HandlerData → Option E)
       (ff : HandlerData → Option F) (fg : HandlerData → Option G) d,
      (fromData7 fa fb fc fd fe ff fg d).isSome ↔
        (fa d).isSome ∧ (fb d).isSome ∧ (fc d).isSome ∧ (fd d).isSome ∧
        (fe d).isSome ∧ (ff d).isSome ∧ (fg d).isSome) ∧
    (∀ (A B C D E F G H : Type) (fa : HandlerData → Option A)
       (fb : HandlerData → Option B) (fc : HandlerData → Option C)
       (fd : HandlerData → Option D) (fe : HandlerData → Option E)
       (ff : HandlerData → Option F) (fg : HandlerData → Option G)
       (fh : HandlerData → Option H) d,
      (fromData8 fa fb fc fd fe ff fg fh d).isSome ↔
        (fa d).isSome ∧ (fb d).isSome ∧ (fc d).isSome ∧ (fd d).isSome ∧
        (fe d).isSome ∧ (ff d).isSome ∧ (fg d).isSome ∧ (fh d).isSome) ∧
    (∀ d, d.message.media = none → stickerFromData d = none) ∧
    (∀ (e : HandlerWrap) (es : List HandlerWrap) (message : Message)
       (mutator : Option (List Char → Regex)) (d : HandlerData),
      filtersMatch e.filters message mutator d = some true →
      e.handler d = none →
      findHandler (e :: es) message mutator d =
        findHandler es message mutator d) := by
  refine ⟨fun d => rfl, ?_, ?_, ?_, ?_, ?_, ?_, ?_, ?_, ?_, ?_⟩
  · intro A fa d
    cases h1 : fa d <;> simp [fromData1, h1]
  · intro A B fa fb d
    cases h1 : fa d <;> cases h2 : fb d <;> simp [fromData2, h1, h2]
  · intro A B C fa fb fc d
    cases h1 : fa d <;> cases h2 : fb d <;> cases h3 : fc d <;>
      simp [fromData3, h1, h2, h3]
  · intro A B C D fa fb fc fd d
    cases h1 : fa d <;> cases h2 : fb d <;> cases h3 : fc d <;>
      cases h4 : fd d <;> simp [fromData4, h1, h2, h3, h4]
  · intro A B C D E fa fb fc fd fe d
    cases h1 : fa d <;> cases h2 : fb d <;> cases h3 : fc d <;>
      cases h4 : fd d <;> cases h5 : fe d <;>
      simp [fromData5, h1, h2, h3, h4, h5]
  · intro A B C D E F fa fb fc fd fe ff d
    cases h1 : fa d <;> cases h2 : fb d <;> cases h3 : fc d <;>
      cases h4 : fd d <;> cases h5 : fe d <;> cases h6 : ff d <;>
      simp [fromData6, h1, h2, h3, h4, h5, h6]
  · intro A B C D E F G fa fb fc fd fe ff fg d
    cases h1 : fa d <;> cases h2 : fb d <;> cases h3 : fc d <;>
      cases h4 : fd d <;> cases h5 : fe d <;> cases h6 : ff d <;>
      cases h7 : fg d <;> simp [fromData7, h1, h2, h3, h4, h5, h6, h7]
  · intro A B C D E F G H fa fb fc fd fe ff fg fh d
    cases h1 : fa d <;> cases h2 : fb d <;> cases h3 : fc d <;>
      cases h4 : fd d <;> cases h5 : fe d <;> cases h6 : ff d <;>
      cases h7 : fg d <;> cases h8 : fh d <;>
      simp [fromData8, h1, h2, h3, h4, h5, h6, h7, h8]
  · intro d h
    unfold stickerFromData
    rw [h]
    rfl
  · intro e es message mutator d hf hh
    simp only [findHandler]
    rw [hf, hh]

/-- Witness for C2: on the concrete text-only message, the sticker
extractor is absent. -/
theorem composite_extraction_conjunction_witness :
    stickerFromData plainData = none :=
  composite_extraction_conjunction.2.2.2.2.2.2.2.2.2.1 plainData (by decide)

/-- C5: when every registered entry either fails a filter or fails
extraction, the search reports no match, dispatch invokes the message
fallback and returns its result, and if the fallback's own parameter
extraction fails dispatch returns the missing-fallback-parameters
error. -/
theorem fallback_dispatch :
    (∀ (entries : List HandlerWrap) (message : Message)
       (mutator : Option (List Char → Regex)) (d : HandlerData),
      (∀ k (hk : k < entries.length),
        entrySkips (entries.get ⟨k, hk⟩) message mutator d) →
      findHandler entries message mutator d = some none) ∧
    (∀ (hs : Handlers) (client : Client) (me : User)
       (store : List (Nat × Nat)) (message : Message) (r : HandlerResult),
      hs.interceptor = none →
      findHandler hs.handlers message hs.patternMutator
        (mkData client message me store) = some none →
      hs.messageFallback (mkData client message me store) = some r →
      hs.handle client (.newMessage message) me store = some r) ∧
    (∀ (hs : Handlers) (client : Client) (me : User)
       (store : List (Nat × Nat)) (message : Message),
      hs.interceptor = none →
      findHandler hs.handlers message hs.patternMutator
        (mkData client message me store) = some none →
      hs.messageFallback (mkData client message me store) = none →
      hs.handle client (.newMessage message) me store =
        some (.error (.missingParameters
          (chars "Fallback handle function parameter")))) := by
  refine ⟨?_, ?_, ?_⟩
  · intro entries
    induction entries with
    | nil => intro message mutator d _; rfl
    | cons e es ih =>
      intro message mutator d hskip
      have h0 : entrySkips e message mutator d := hskip 0 (Nat.succ_pos _)
      have hrest : findHandler es message mutator d = some none :=
        ih message mutator d (fun k hk => hskip (k + 1) (Nat.succ_lt_succ hk))
      rcases h0 with h | ⟨h1, h2⟩
      · simp only [findHandler]; rw [h]; exact hrest
      · simp only [findHandler]; rw [h1, h2]; exact hrest
  · intro hs client me store message r hint hfind hfb
    simp only [Handlers.handle, hint]
    rw [hfind, hfb]
  · intro hs client me store message hint hfind hfb
    simp only [Handlers.handle, hint]
    rw [hfind, hfb]

/-- Witness for C5: the concrete table whose single entry does not match
`"hi"` and whose fallback cannot extract produces the
missing-fallback-parameters error. -/
theorem fallback_dispatch_witness :
    tableNoMatch.handle clientX (.newMessage msgPlain) meX [] =
      some (.error (.missingParameters
        (chars "Fallback handle function parameter"))) :=
  fallback_dispatch.2.2 tableNoMatch clientX meX [] msgPlain rfl rfl rfl

/-- C3: a failure returned by a dispatched handler is handed to the
registered error handler exactly once, with that error and the client,
and is not retried; the event loop goes on — every update of the stream
is dispatched, the i-th loop outcome being exactly the dispatch of the
i-th update — and the default error handler only logs and reports
success. -/
theorem error_handler_once_loop_continues :
    (∀ (hs : Handlers) (client : Client) (me : User)
       (store : List (Nat × Nat)) (u : Update) (e : GrammersthonError),
      hs.handle client u me store = some (.error e) →
      processUpdate hs client me store u =
        (some (.error e), [(e, client)])) ∧
    (∀ (hs : Handlers) (client : Client) (me : User)
       (store : List (Nat × Nat)) (updates : List Update),
      (eventLoop hs client me store updates).length = updates.length) ∧
    (∀ (hs : Handlers) (client : Client) (me : User)
       (store : List (Nat × Nat)) (updates : List Update) (i : Nat),
      (eventLoop hs client me store updates).get? i =
        (updates.get? i).map (processUpdate hs client me store)) ∧
    (∀ (e : GrammersthonError) (c : Client),
      defaultErrorHandler e c = .ok ()) := by
  refine ⟨?_, ?_, ?_, fun e c => rfl⟩
  · intro hs client me store u e h
    simp only [processUpdate]
    rw [h]
  · intro hs client me store updates
    simp [eventLoop]
  · intro hs client me store updates i
    simp [eventLoop, List.get?_eq_getElem?, List.getElem?_map]

/-- Witness for C3: on the concrete always-failing table, one dispatched
update produces exactly one error-handler invocation carrying the
handler's error and the client. -/
theorem error_handler_once_loop_continues_witness :
    processUpdate tableErr clientX meX [] (.newMessage msgPlain) =
      (some (.error .unimplemented), [(.unimplemented, clientX)]) :=
  error_handler_once_loop_continues.1 tableErr clientX meX []
    (.newMessage msgPlain) .unimplemented rfl

/-- C10: extraction of `RawArgs` is total — for every message text it
yields `Some`: the spaceless case produces the empty `RawArgs`, and
`RawArgs::parse_arg` never returns an error. -/
theorem raw_args_total_extraction :
    (∀ text, ∃ r, rawArgsFromData text = some r) ∧
    (∀ text, ¬ ' ' ∈ text → rawArgsFromData text = some ⟨[]⟩) ∧
    (∀ input, ∃ a, RawArgs.parse_arg input = .ok a) := by
  refine ⟨?_, ?_, fun input => ⟨_, rfl⟩⟩
  · intro text
    cases h : strFindSpace text with
    | none => exact ⟨⟨[]⟩, by simp [rawArgsFromData, h]⟩
    | some i =>
      obtain ⟨a, ha⟩ : ∃ a, RawArgs.parse_arg (text.drop i) = .ok a := ⟨_, rfl⟩
      exact ⟨a, by simp [rawArgsFromData, h, ha, Except.toOption]⟩
  · intro text h
    unfold rawArgsFromData
    rw [strFindSpace_eq_none h]

/-- Witness for C10: the spaceless text `"abc"` extracts to the empty
`RawArgs`. -/
theorem raw_args_total_extraction_witness :
    rawArgsFromData (chars "abc") = some ⟨[]⟩ :=
  raw_args_total_extraction.2.1 (chars "abc") (by decide)

/-- C4 counterexample: the claim that spaceless text is "treated as empty
argument text" fails — on the spaceless message text `"hello"` with the
always-succeeding `String` binder, the code's `Args` extraction is
absent while the claim's reading would extract `Args("")`; the two
disagree. -/
theorem args_extraction_claim_refuted :
    argsFromData stringParseArg (chars "hello") = none ∧
    argsFromDataClaim stringParseArg (chars "hello") = some ⟨[]⟩ ∧
    argsFromData stringParseArg (chars "hello") ≠
      argsFromDataClaim stringParseArg (chars "hello") :=
  ⟨rfl, rfl, by decide⟩

/-- C4 amended: `Args<A>` binding requires the message text to contain a
space — spaceless text yields extraction absence (the handler is
skipped), not empty argument text; otherwise the substring starting at
the first space (that space included) is fed to the typed binder, whose
parse failure yields extraction absence rather than a propagated
error. -/
theorem args_extraction_behavior :
    (∀ (A : Type) (pa : List Char → Except GrammersthonError A) text,
      ¬ ' ' ∈ text → argsFromData pa text = none) ∧
    (∀ (A : Type) (pa : List Char → Except GrammersthonError A) text i,
      text.get? i = some ' ' →
      (∀ j, j < i → ¬ text.get? j = some ' ') →
      argsFromData pa text =
        match pa (text.drop i) with
        | .ok a => some ⟨a⟩
        | .error _ => none) := by
  constructor
  · intro A pa text h
    unfold argsFromData
    rw [strFindSpace_eq_none h]
  · intro A pa text i hi hmin
    unfold argsFromData
    rw [strFindSpace_spec hi hmin]

/-- Witness for C4 amended: on `"a b"` the first space is at index 1 and
the `String` binder receives `" b"`, space included. -/
theorem args_extraction_behavior_witness :
    argsFromData stringParseArg (chars "a b") = some ⟨chars " b"⟩ :=
  args_extraction_behavior.2 (List Char) stringParseArg (chars "a b") 1
    (by decide) (by decide)

/-- C6 counterexample: registration performs no validation — a pattern
filter built directly with the malformed pattern `"("` is accepted by
`add_handler`, and dispatch then reaches the recompilation-failure
branch (the modelled `unwrap` panic) for that very message, so the
branch is not unreachable for every filter that reaches dispatch. -/
theorem pattern_validation_claim_refuted :
    Regex.new (chars "(") = none ∧
    (Handlers.new.add [.regex (chars "(")] (fun _ => some (.ok ()))).handle
      clientX (.newMessage msgPlain) meX [] = none :=
  ⟨rfl, rfl⟩

/-- C6 amended: only the attribute's filter parser validates patterns —
at expansion time, so a pattern it accepts always recompiles at dispatch;
for every table all of whose pattern filters compile (in particular any
table whose pattern filters come from the attribute path), dispatch never
reaches the recompilation-failure branch; but `add_handler` itself does
not validate, so a directly constructed malformed pattern filter still
panics. -/
theorem pattern_validation_amended :
    (∀ pat f, attrRegexFilter pat = some f → filterValidated f) ∧
    (∀ (f : HandlerFilter) (message : Message)
       (mutator : Option (List Char → Regex)) (d : HandlerData),
      filterValidated f → ∃ b, f.matches message mutator d = some b) ∧
    (∀ (hs : Handlers) (client : Client) (me : User)
       (store : List (Nat × Nat)) (message : Message),
      (∀ e ∈ hs.handlers, ∀ f ∈ e.filters, filterValidated f) →
      ∃ r, hs.handle client (.newMessage message) me store = some r) := by
  refine ⟨?_, matches_total_of_validated, ?_⟩
  · intro pat f h
    unfold attrRegexFilter at h
    cases hr : Regex.new pat with
    | none => rw [hr] at h; simp at h
    | some re =>
      rw [hr] at h
      simp at h
      subst h
      show (Regex.new pat).isSome = true
      rw [hr]
      rfl
  · intro hs client me store message hval
    cases hint : hs.interceptor with
    | some i =>
      cases hi : i (mkData client message me store) with
      | error e => exact ⟨.error e, by simp [Handlers.handle, hint, hi]⟩
      | ok d =>
        obtain ⟨o, ho⟩ := findHandler_total hs.handlers message
          hs.patternMutator d hval
        cases o with
        | some r => exact ⟨r, by simp [Handlers.handle, hint, hi, ho]⟩
        | none =>
          cases hfb : hs.messageFallback d with
          | some r =>
            exact ⟨r, by simp [Handlers.handle, hint, hi, ho, hfb]⟩
          | none =>
            exact ⟨.error (.missingParameters
                (chars "Fallback handle function parameter")),
              by simp [Handlers.handle, hint, hi, ho, hfb]⟩
    | none =>
      obtain ⟨o, ho⟩ := findHandler_total hs.handlers message
        hs.patternMutator (mkData client message me store) hval
      cases o with
      | some r => exact ⟨r, by simp [Handlers.handle, hint, ho]⟩
      | none =>
        cases hfb : hs.messageFallback (mkData client message me store) with
        | some r => exact ⟨r, by simp [Handlers.handle, hint, ho, hfb]⟩
        | none =>
          exact ⟨.error (.missingParameters
              (chars "Fallback handle function parameter")),
            by simp [Handlers.handle, hint, ho, hfb]⟩

/-- Witness for C6 amended: on the concrete table holding the validated
pattern `"x"`, dispatch of `"x"` completes without reaching the
recompilation-failure branch. -/
theorem pattern_validation_amended_witness :
    ∃ r, tableVal.handle clientX (.newMessage msgX) meX [] = some r :=
  pattern_validation_amended.2.2 tableVal clientX meX [] msgX
    (by
      intro e he f hf
      simp [tableVal, Handlers.add, Handlers.new] at he
      subst he
      simp at hf
      subst hf
      decide)

/-- C7 counterexample: `split_n` does not split on runs of arbitrary
whitespace — on the input `"a\t"` with `n = 1` it returns the single
token `"a\t"`, which contains a whitespace character (and is untrimmed),
so the claimed whitespace-delimited trimmed tokenization fails. -/
theorem split_whitespace_claim_refuted :
    ¬ splitOnWhitespaceClaim (chars "a\t") 1 := by
  unfold splitOnWhitespaceClaim
  decide

/-- C7 amended: `split_n` splits on runs of the space character into at
most `n` tokens: the token list never exceeds `n`, no token contains a
space, and every token except possibly the last (which the epilogue
pushes verbatim at end of input) is trimmed of surrounding
whitespace. -/
theorem split_n_tokens_amended :
    ∀ (input : List Char) (count : Nat),
      (RawArgs.parse_n input count).1.args.length ≤ count ∧
      (∀ t ∈ (RawArgs.parse_n input count).1.args, ¬ ' ' ∈ t) ∧
      (∀ t ∈ (RawArgs.parse_n input count).1.args.dropLast,
        trimList t = t) := by
  intro input count
  cases count with
  | zero =>
    refine ⟨Nat.le_refl 0, ?_, ?_⟩
    · intro t ht
      simp [RawArgs.parse_n] at ht
    · intro t ht
      simp [RawArgs.parse_n] at ht
  | succ n =>
    have hinv := parseNLoop_inv (n + 1) input [] [] (Nat.succ_pos n)
      (fun t ht => absurd ht (List.not_mem_nil t))
      (fun t ht => absurd ht (List.not_mem_nil t))
      (List.not_mem_nil ' ')
    obtain ⟨hlen, hne, hsp, htr, hasp⟩ := hinv
    have hn : RawArgs.parse_n input (n + 1) =
        (⟨if (parseNLoop (n + 1) [] [] input).2.1 = []
          then (parseNLoop (n + 1) [] [] input).1
          else (parseNLoop (n + 1) [] [] input).1 ++
            [(parseNLoop (n + 1) [] [] input).2.1]⟩,
         (parseNLoop (n + 1) [] [] input).2.2) := rfl
    rw [hn]
    by_cases harg : (parseNLoop (n + 1) [] [] input).2.1 = []
    · rw [if_pos harg]
      refine ⟨hlen, hsp, ?_⟩
      intro t ht
      exact htr t (mem_of_mem_dropLast ht)
    · rw [if_neg harg]
      refine ⟨?_, ?_, ?_⟩
      · simp only [List.length_append, List.length_singleton]
        exact hne harg
      · intro t ht
        rcases List.mem_append.mp ht with ht | ht
        · exact hsp t ht
        · rw [List.mem_singleton.mp ht]
          exact hasp
      · intro t ht
        rw [List.dropLast_concat] at ht
        exact htr t ht

/-- Witness for C7 amended: the first token of `split_n("ab cd", 2)`
contains no space. -/
theorem split_n_tokens_amended_witness :
    ¬ ' ' ∈ chars "ab" :=
  (split_n_tokens_amended (chars "ab cd") 2).2.1 (chars "ab") (by decide)

/-- C9: the derived parser for a `k`-field struct whose last field is
`#[rest]` calls `split_n` with `n = k-1` (the list of leading field
parsers has length `k-1` and `parse_n` is invoked at exactly that
count), parses each of the first `k-1` fields independently from its
corresponding token, and parses the last field from the full rest
string; in particular the `(u32, #[rest] String)` struct parsed from
`"5 hello world"` yields `(5, "hello world")`. -/
theorem derived_rest_struct_parse :
    (∀ (V : Type) (ps : List (List Char → Except GrammersthonError V))
       (restP : List Char → Except GrammersthonError V)
       (input : List Char) (vs : List V) (r : V),
      derivedRestStructParse ps restP input = .ok (vs, r) →
      ps.length ≤ (RawArgs.parse_n input ps.length).1.args.length ∧
      vs.length = ps.length ∧
      (∀ i, i < ps.length →
        ∃ p t v, ps.get? i = some p ∧
          (RawArgs.parse_n input ps.length).1.args.get? i = some t ∧
          vs.get? i = some v ∧ p t = .ok v) ∧
      restP (RawArgs.parse_n input ps.length).2 = .ok r) ∧
    derivedRestStructParse [fun t => (parseU32 t).map Val.nat]
      (fun t => .ok (Val.str t)) (chars "5 hello world") =
      .ok ([Val.nat 5], Val.str (chars "hello world")) := by
  constructor
  · intro V ps restP input vs r h
    unfold derivedRestStructParse at h
    by_cases hg : (RawArgs.parse_n input ps.length).1.args.length < ps.length
    · rw [if_pos hg] at h
      simp at h
    · rw [if_neg hg] at h
      refine ⟨Nat.le_of_not_lt hg, ?_⟩
      cases hf : parseFields ps (RawArgs.parse_n input ps.length).1.args with
      | error e => rw [hf] at h; simp at h
      | ok vs' =>
        rw [hf] at h
        cases hr : restP (RawArgs.parse_n input ps.length).2 with
        | error e => rw [hr] at h; simp at h
        | ok r' =>
          rw [hr] at h
          simp at h
          obtain ⟨hvs, hrr⟩ := h
          subst hvs
          subst hrr
          obtain ⟨hlen, helem⟩ := parseFields_spec ps
            (RawArgs.parse_n input ps.length).1.args vs' hf
          exact ⟨hlen, helem, rfl⟩
  · decide

/-- Witness for C9: applying the general characterization to the concrete
`(u32, #[rest] String)` parse of `"5 hello world"`, the rest parser sees
exactly `"hello world"`. -/
theorem derived_rest_struct_parse_witness :
    (fun t => (Except.ok (Val.str t) : Except GrammersthonError Val))
      ((RawArgs.parse_n (chars "5 hello world")
        ([fun t => (parseU32 t).map Val.nat] :
          List (List Char → Except GrammersthonError Val)).length).2) =
      .ok (Val.str (chars "hello world")) :=
  (derived_rest_struct_parse.1 Val [fun t => (parseU32 t).map Val.nat]
    (fun t => .ok (Val.str t)) (chars "5 hello world") [Val.nat 5]
    (Val.str (chars "hello world")) (by decide)).2.2.2
